import Mathlib

/-!
# Verification of the Pinecone router core against its specification

This file gives a shallow embedding of the parts of the Pinecone repository
that the specification's claims are about:

* the wire frame codec (varint encoding, 16-bit big-endian lengths, the
  per-type frame layouts with their magic/version/length header);
* the per-peer reader loop of `router/simulator.go` (`Peer.reader`): how the
  expected frame size is computed from the peeked header and how parse
  errors are handled;
* the peer lifecycle state touched by `Peer.SeenRecently`,
  `Peer.SeenCommonRootRecently`, `Peer.updateAnnouncement`, `Peer.stop` and
  `peerStatistics.reset`.

Bytes are modelled as `Nat` values (well-formedness predicates bound them
where it matters), byte strings as `List Nat`, machine integers as `Nat`
with explicit bounds, and wall-clock instants as a `Nat` parameter `now`
(`time.Since x = now - x`).
-/

namespace Pinecone

/-! ## Varint codec

The frame codec (`types/frame.go`, `types/varu64.go`) is not part of the
source files available here; only its tests are.  The varint functions below
are therefore modelled from the spec: "big-endian 7-bit groups with
continuation bit in the MSB, most-significant group first, at most 10 bytes.
Every varint decode MUST terminate within 10 bytes; else `MalformedVarint`."
A failed decode is `none`.
-/

/-- Modelled from the spec: the leading (continuation) 7-bit groups of a
varint, most-significant group first, each with the 0x80 continuation bit
set.  The fuel argument only serves structural recursion; fuel 10 covers
every value below `2 ^ 70`, in particular every 64-bit value. -/
def varu64EncodeAux : Nat → Nat → List Nat
  | _, 0 => []
  | 0, _ + 1 => []
  | f + 1, n + 1 => varu64EncodeAux f ((n + 1) / 128) ++ [128 + (n + 1) % 128]

/-- Modelled from the spec: varint encoding, big-endian 7-bit groups with a
continuation bit in the MSB of every group except the last. -/
def varu64Encode (n : Nat) : List Nat :=
  varu64EncodeAux 10 (n / 128) ++ [n % 128]

/-- Modelled from the spec: varint decoding worker.  `fuel` is the number of
bytes the decoder is still allowed to consume (10 at the top level); running
out of fuel or out of input is the `MalformedVarint` failure, reported as
`none`.  On success it returns the value and the number of bytes consumed. -/
def varu64DecodeAux : Nat → Nat → List Nat → Option (Nat × Nat)
  | _, _, [] => none
  | 0, _, _ :: _ => none
  | f + 1, acc, b :: rest =>
    if b < 128 then some (acc * 128 + b, 1)
    else
      match varu64DecodeAux f (acc * 128 + (b - 128)) rest with
      | none => none
      | some (v, k) => some (v, k + 1)

/-- Modelled from the spec: varint decoding; at most 10 bytes are examined. -/
def varu64Decode (b : List Nat) : Option (Nat × Nat) :=
  varu64DecodeAux 10 0 b

/-! ### Varint lemmas -/

theorem varu64EncodeAux_length_le :
    ∀ (g f m : Nat), m < 128 ^ g → (varu64EncodeAux f m).length ≤ g := by
  intro g
  induction g with
  | zero =>
    intro f m hm
    interval_cases m
    cases f <;> simp [varu64EncodeAux]
  | succ g ih =>
    intro f m hm
    match f, m with
    | _, 0 => simp [varu64EncodeAux]
    | 0, m + 1 => simp [varu64EncodeAux]
    | f + 1, m + 1 =>
      have hdiv : (m + 1) / 128 < 128 ^ g := by
        rw [Nat.div_lt_iff_lt_mul (by norm_num)]
        calc m + 1 < 128 ^ (g + 1) := hm
        _ = 128 ^ g * 128 := by ring
      simpa [varu64EncodeAux] using ih f ((m + 1) / 128) hdiv

theorem varu64Encode_length_pos (n : Nat) : 1 ≤ (varu64Encode n).length := by
  simp [varu64Encode]

theorem varu64Encode_ne_nil (n : Nat) : varu64Encode n ≠ [] := by
  intro h
  have := varu64Encode_length_pos n
  simp [h] at this

/-- One decode step on a byte with the continuation bit set. -/
theorem varu64DecodeAux_cons_cont (g acc c : Nat) (l : List Nat) (hc : 128 ≤ c) :
    varu64DecodeAux (g + 1) acc (c :: l)
      = (varu64DecodeAux g (acc * 128 + (c - 128)) l).map
          (fun p => (p.1, p.2 + 1)) := by
  simp only [varu64DecodeAux, if_neg (by omega : ¬ c < 128)]
  cases varu64DecodeAux g (acc * 128 + (c - 128)) l with
  | none => rfl
  | some p => cases p; rfl

/-- One decode step on a terminal byte (continuation bit clear). -/
theorem varu64DecodeAux_cons_term (g acc c : Nat) (l : List Nat) (hc : c < 128) :
    varu64DecodeAux (g + 1) acc (c :: l) = some (acc * 128 + c, 1) := by
  simp [varu64DecodeAux, hc]

theorem varu64DecodeAux_encodeAux :
    ∀ (f m acc fuel : Nat) (l : List Nat), m < 128 ^ f →
      (varu64EncodeAux f m).length ≤ fuel →
      varu64DecodeAux fuel acc (varu64EncodeAux f m ++ l)
        = (varu64DecodeAux (fuel - (varu64EncodeAux f m).length)
            (acc * 128 ^ (varu64EncodeAux f m).length + m) l).map
            (fun p => (p.1, p.2 + (varu64EncodeAux f m).length)) := by
  intro f
  induction f with
  | zero =>
    intro m acc fuel l hm _
    interval_cases m
    simp [varu64EncodeAux, Option.map_id]
  | succ f ih =>
    intro m acc fuel l hm hlen
    match m with
    | 0 =>
      simp [varu64EncodeAux, Option.map_id]
    | m + 1 =>
      have hdiv : (m + 1) / 128 < 128 ^ f := by
        rw [Nat.div_lt_iff_lt_mul (by norm_num)]
        calc m + 1 < 128 ^ (f + 1) := hm
        _ = 128 ^ f * 128 := by ring
      have hunfold : varu64EncodeAux (f + 1) (m + 1)
          = varu64EncodeAux f ((m + 1) / 128) ++ [128 + (m + 1) % 128] := rfl
      have hlenE : (varu64EncodeAux (f + 1) (m + 1)).length
          = (varu64EncodeAux f ((m + 1) / 128)).length + 1 := by
        rw [hunfold]; simp
      rw [hlenE] at hlen
      rw [hlenE, hunfold, List.append_assoc, List.singleton_append]
      rw [ih ((m + 1) / 128) acc fuel ((128 + (m + 1) % 128) :: l) hdiv (by omega)]
      obtain ⟨g, hg⟩ : ∃ g, fuel - (varu64EncodeAux f ((m + 1) / 128)).length = g + 1 :=
        ⟨fuel - (varu64EncodeAux f ((m + 1) / 128)).length - 1, by omega⟩
      rw [hg, varu64DecodeAux_cons_cont _ _ _ _ (by omega), Option.map_map]
      have hacc : (acc * 128 ^ (varu64EncodeAux f ((m + 1) / 128)).length + (m + 1) / 128)
            * 128 + (128 + (m + 1) % 128 - 128)
          = acc * 128 ^ ((varu64EncodeAux f ((m + 1) / 128)).length + 1) + (m + 1) := by
        have h1 : 128 + (m + 1) % 128 - 128 = (m + 1) % 128 := by omega
        rw [h1]
        calc (acc * 128 ^ (varu64EncodeAux f ((m + 1) / 128)).length + (m + 1) / 128)
              * 128 + (m + 1) % 128
            = acc * (128 ^ (varu64EncodeAux f ((m + 1) / 128)).length * 128)
              + ((m + 1) / 128 * 128 + (m + 1) % 128) := by ring
        _ = acc * 128 ^ ((varu64EncodeAux f ((m + 1) / 128)).length + 1) + (m + 1) := by
            rw [Nat.div_add_mod', ← pow_succ]
      rw [hacc]
      have hgg : g = fuel - ((varu64EncodeAux f ((m + 1) / 128)).length + 1) := by omega
      rw [hgg]
      cases hdec : varu64DecodeAux
          (fuel - ((varu64EncodeAux f ((m + 1) / 128)).length + 1))
          (acc * 128 ^ ((varu64EncodeAux f ((m + 1) / 128)).length + 1) + (m + 1)) l with
      | none => simp [hdec]
      | some p =>
        cases p with
        | mk v k =>
          simp only [hdec, Option.map_some', Function.comp_apply]
          have : k + 1 + (varu64EncodeAux f ((m + 1) / 128)).length
              = k + ((varu64EncodeAux f ((m + 1) / 128)).length + 1) := by omega
          rw [this]

/-- Round trip with an arbitrary suffix: decoding the encoding of any 64-bit
value consumes exactly the encoded bytes and returns the value. -/
theorem varu64Decode_encode_append (n : Nat) (hn : n < 2 ^ 64) (rest : List Nat) :
    varu64Decode (varu64Encode n ++ rest)
      = some (n, (varu64Encode n).length) := by
  have hm : n / 128 < 128 ^ 10 := by
    have h1 : n / 128 ≤ n := Nat.div_le_self n 128
    have h2 : (2 : Nat) ^ 64 ≤ 128 ^ 10 := by norm_num
    omega
  have hlen9 : (varu64EncodeAux 10 (n / 128)).length ≤ 9 := by
    apply varu64EncodeAux_length_le 9
    rw [Nat.div_lt_iff_lt_mul (by norm_num)]
    calc n < 2 ^ 64 := hn
    _ ≤ 128 ^ 9 * 128 := by norm_num
  have hEn : (varu64Encode n).length = (varu64EncodeAux 10 (n / 128)).length + 1 := by
    simp [varu64Encode]
  rw [hEn, varu64Decode, varu64Encode, List.append_assoc, List.singleton_append]
  rw [varu64DecodeAux_encodeAux 10 (n / 128) 0 10 ((n % 128) :: rest) hm (by omega)]
  obtain ⟨g, hg⟩ : ∃ g, 10 - (varu64EncodeAux 10 (n / 128)).length = g + 1 :=
    ⟨10 - (varu64EncodeAux 10 (n / 128)).length - 1, by omega⟩
  rw [hg, varu64DecodeAux_cons_term _ _ _ _ (Nat.mod_lt _ (by norm_num))]
  simp only [Option.map_some']
  have hval : (0 * 128 ^ (varu64EncodeAux 10 (n / 128)).length + n / 128) * 128 + n % 128
      = n := by
    simp [Nat.div_add_mod']
  rw [hval]
  simp [Nat.add_comm]

/-- Successful decodes consume at most their fuel. -/
theorem varu64DecodeAux_consumed_le :
    ∀ (fuel acc : Nat) (b : List Nat) (v k : Nat),
      varu64DecodeAux fuel acc b = some (v, k) → k ≤ fuel := by
  intro fuel
  induction fuel with
  | zero =>
    intro acc b v k h
    cases b <;> simp [varu64DecodeAux] at h
  | succ fuel ih =>
    intro acc b v k h
    cases b with
    | nil => simp [varu64DecodeAux] at h
    | cons x rest =>
      by_cases hx : x < 128
      · simp [varu64DecodeAux, hx] at h
        omega
      · simp only [varu64DecodeAux, if_neg hx] at h
        cases hdec : varu64DecodeAux fuel (acc * 128 + (x - 128)) rest with
        | none => rw [hdec] at h; exact absurd h (by simp)
        | some p =>
          rw [hdec] at h
          cases p with
          | mk v' k' =>
            have := ih (acc * 128 + (x - 128)) rest v' k' hdec
            simp at h
            omega

/-- If the continuation bit is set on ten consecutive bytes, decoding fails. -/
theorem varu64DecodeAux_all_continuation :
    ∀ (fuel acc : Nat) (b : List Nat),
      (∀ i, i < fuel → 128 ≤ b.getD i 0) → fuel ≤ b.length →
      varu64DecodeAux fuel acc b = none := by
  intro fuel
  induction fuel with
  | zero =>
    intro acc b _ hlen
    cases b with
    | nil => rfl
    | cons x rest => rfl
  | succ fuel ih =>
    intro acc b hcont hlen
    cases b with
    | nil => rfl
    | cons x rest =>
      have hx : 128 ≤ x := by simpa using hcont 0 (by omega)
      have hnx : ¬ (x < 128) := by omega
      simp only [varu64DecodeAux, if_neg hnx]
      rw [ih (acc * 128 + (x - 128)) rest
        (fun i hi => by simpa using hcont (i + 1) (by omega))
        (by simpa using hlen)]

/-! ## Frame codec

`types/frame.go` is not among the available source files; only its tests
(`types/frame_test.go`) are.  The codec below is modelled from the spec
(§3 data model, §4.1 frame codec) and pinned to the concrete wire examples
of `frame_test.go`: in particular, those test vectors show that the 16-bit
`frame_len` field holds the TOTAL size of the frame including the 10-byte
fixed header (the Tree Routed example is 33 bytes long in total and carries
`frame_len = 33`).
-/

/-- The frame magic bytes 0x70 0x69 0x6e 0x65 ("pine"). -/
def FrameMagicBytes : List Nat := [112, 105, 110, 101]

/-- Big-endian 16-bit encoding of a length field, truncated like
`binary.BigEndian.PutUint16`. -/
def enc16 (n : Nat) : List Nat := [n / 256 % 256, n % 256]

theorem dec16_enc16 (n : Nat) (h : n < 65536) :
    n / 256 % 256 * 256 + n % 256 = n := by
  have h1 : n / 256 < 256 := by omega
  rw [Nat.mod_eq_of_lt h1, Nat.div_add_mod']

/-- Modelled from the spec: coordinates are marshalled as the concatenation
of the varint encodings of their ports. -/
def encodeCoords (c : List Nat) : List Nat := (c.map varu64Encode).flatten

/-- Modelled from the spec: decode a full byte segment as a sequence of
varint-encoded ports.  The fuel (the segment length at top level) only
serves structural recursion; every varint consumes at least one byte. -/
def decodeCoordsAux : Nat → List Nat → Option (List Nat)
  | _, [] => some []
  | 0, _ :: _ => none
  | f + 1, b :: rest =>
    match varu64Decode (b :: rest) with
    | none => none
    | some (v, k) =>
      match decodeCoordsAux f ((b :: rest).drop k) with
      | none => none
      | some c => some (v :: c)

def decodeCoords (b : List Nat) : Option (List Nat) := decodeCoordsAux b.length b

theorem decodeCoordsAux_ne_nil (f : Nat) (b : List Nat) (hb : b ≠ []) :
    decodeCoordsAux (f + 1) b
      = match varu64Decode b with
        | none => none
        | some (v, k) =>
          match decodeCoordsAux f (b.drop k) with
          | none => none
          | some c => some (v :: c) := by
  cases b with
  | nil => exact absurd rfl hb
  | cons x rest => rfl

theorem decodeCoordsAux_encodeCoords :
    ∀ (c : List Nat) (fuel : Nat), (∀ x ∈ c, x < 2 ^ 64) →
      (encodeCoords c).length ≤ fuel →
      decodeCoordsAux fuel (encodeCoords c) = some c := by
  intro c
  induction c with
  | nil =>
    intro fuel _ _
    cases fuel <;> simp [encodeCoords, decodeCoordsAux]
  | cons x c ih =>
    intro fuel hx hlen
    have hxlt : x < 2 ^ 64 := hx x (by simp)
    have hE : encodeCoords (x :: c) = varu64Encode x ++ encodeCoords c := by
      simp [encodeCoords]
    rw [hE] at hlen ⊢
    have hpos := varu64Encode_length_pos x
    have hlen' : 1 ≤ fuel := by
      have := List.length_append (varu64Encode x) (encodeCoords c)
      omega
    obtain ⟨g, hg⟩ : ∃ g, fuel = g + 1 := ⟨fuel - 1, by omega⟩
    subst hg
    rw [decodeCoordsAux_ne_nil g _ (by
      intro hnil
      exact varu64Encode_ne_nil x (List.append_eq_nil.mp hnil).1)]
    rw [varu64Decode_encode_append x hxlt (encodeCoords c)]
    simp only [List.drop_left]
    rw [ih g (fun y hy => hx y (by simp [hy])) (by
      have := List.length_append (varu64Encode x) (encodeCoords c)
      omega)]

theorem decodeCoords_encodeCoords (c : List Nat) (hc : ∀ x ∈ c, x < 2 ^ 64) :
    decodeCoords (encodeCoords c) = some c :=
  decodeCoordsAux_encodeCoords c (encodeCoords c).length hc le_rfl

/-- One wire frame, as held by `types.Frame`: header fields plus the union
of the per-type payload fields.  Fields that a frame type does not put on
the wire keep their zero values (`[]`, the all-zeroes key, sequence 0). -/
structure Frame where
  version : Nat
  ftype : Nat
  destination : List Nat
  source : List Nat
  destinationKey : List Nat
  sourceKey : List Nat
  watermarkKey : List Nat
  watermarkSeq : Nat
  payload : List Nat
  deriving DecidableEq, Repr

/-- The zero value of a 32-byte public key. -/
def zeroKey : List Nat := List.replicate 32 0

/-- The spec's parse-error taxonomy for the frame codec. -/
inductive FrameError where
  | BadMagic
  | UnsupportedVersion
  | Truncated
  | MalformedVarint
  | InconsistentLength
  deriving DecidableEq, Repr

/-- Modelled from the spec: the body (everything after the 10-byte fixed
header) of a marshalled frame, per the §3 layout table and the
`frame_test.go` wire examples.
* type 0 (Keepalive): empty;
* types 1/2/7/8 (tree announcement / tree routed / tree ping / tree pong):
  `payload_len(2) | dst_len(2) | dst coords | src_len(2) | src coords | payload`;
* type 3 (Bootstrap): `payload_len(2) | dst_key(32) | watermark_key(32) |
  watermark_seq(varint) | payload`;
* types 4/5/6 (SNEK routed / ping / pong): `payload_len(2) | dst_key(32) |
  src_key(32) | watermark_key(32) | watermark_seq(varint) | payload`. -/
def marshalBody (f : Frame) : List Nat :=
  if f.ftype = 0 then []
  else if f.ftype = 1 ∨ f.ftype = 2 ∨ f.ftype = 7 ∨ f.ftype = 8 then
    enc16 f.payload.length ++
    enc16 (encodeCoords f.destination).length ++ encodeCoords f.destination ++
    enc16 (encodeCoords f.source).length ++ encodeCoords f.source ++
    f.payload
  else if f.ftype = 3 then
    enc16 f.payload.length ++ f.destinationKey ++ f.watermarkKey ++
    varu64Encode f.watermarkSeq ++ f.payload
  else if f.ftype = 4 ∨ f.ftype = 5 ∨ f.ftype = 6 then
    enc16 f.payload.length ++ f.destinationKey ++ f.sourceKey ++ f.watermarkKey ++
    varu64Encode f.watermarkSeq ++ f.payload
  else []

/-- Modelled from the spec: `marshal` emits the fixed header
`magic(4) | version(1) | type(1) | extra(2) | frame_len(2)` followed by the
type-specific body; `frame_len` is the total frame size (as the test
vectors show). -/
def marshalFrame (f : Frame) : List Nat :=
  FrameMagicBytes ++ [f.version, f.ftype, 0, 0] ++
  enc16 (10 + (marshalBody f).length) ++ marshalBody f

theorem marshalFrame_length (f : Frame) :
    (marshalFrame f).length = 10 + (marshalBody f).length := by
  simp [marshalFrame, FrameMagicBytes, enc16]
  omega

/-- Split two big-endian length bytes off the front of a byte string. -/
def parse16 : List Nat → Option (Nat × List Nat)
  | a :: b :: rest => some (a * 256 + b, rest)
  | _ => none

/-- Modelled from the spec: parse the type-specific body of a frame, given
the frame type; checks that the inner lengths are consistent with the body
segment delimited by `frame_len`. -/
def parseBody (t : Nat) (body : List Nat) : Except FrameError Frame :=
  if t = 0 then
    if body = [] then .ok ⟨0, t, [], [], zeroKey, zeroKey, zeroKey, 0, []⟩
    else .error .InconsistentLength
  else if t = 1 ∨ t = 2 ∨ t = 7 ∨ t = 8 then
    match parse16 body with
    | none => .error .Truncated
    | some (plen, r1) =>
      match parse16 r1 with
      | none => .error .Truncated
      | some (dlen, r2) =>
        if r2.length < dlen then .error .Truncated
        else
          match decodeCoords (r2.take dlen) with
          | none => .error .MalformedVarint
          | some dst =>
            match parse16 (r2.drop dlen) with
            | none => .error .Truncated
            | some (slen, r3) =>
              if r3.length < slen then .error .Truncated
              else
                match decodeCoords (r3.take slen) with
                | none => .error .MalformedVarint
                | some src =>
                  if (r3.drop slen).length = plen then
                    .ok ⟨0, t, dst, src, zeroKey, zeroKey, zeroKey, 0, r3.drop slen⟩
                  else .error .InconsistentLength
  else if t = 3 then
    match parse16 body with
    | none => .error .Truncated
    | some (plen, r1) =>
      if r1.length < 64 then .error .Truncated
      else
        match varu64Decode (r1.drop 64) with
        | none => .error .MalformedVarint
        | some (seq, k) =>
          if ((r1.drop 64).drop k).length = plen then
            .ok ⟨0, t, [], [], r1.take 32, zeroKey, (r1.drop 32).take 32, seq,
              (r1.drop 64).drop k⟩
          else .error .InconsistentLength
  else if t = 4 ∨ t = 5 ∨ t = 6 then
    match parse16 body with
    | none => .error .Truncated
    | some (plen, r1) =>
      if r1.length < 96 then .error .Truncated
      else
        match varu64Decode (r1.drop 96) with
        | none => .error .MalformedVarint
        | some (seq, k) =>
          if ((r1.drop 96).drop k).length = plen then
            .ok ⟨0, t, [], [], r1.take 32, (r1.drop 32).take 32,
              (r1.drop 64).take 32, seq, (r1.drop 96).drop k⟩
          else .error .InconsistentLength
  else .error .InconsistentLength

/-- Modelled from the spec: `unmarshal` parses one frame, returning it with
the number of bytes consumed, or one of the parse errors of §7. -/
def unmarshalFrame (b : List Nat) : Except FrameError (Frame × Nat) :=
  match b with
  | m0 :: m1 :: m2 :: m3 :: v :: t :: _ :: _ :: l0 :: l1 :: rest =>
    if [m0, m1, m2, m3] ≠ FrameMagicBytes then .error .BadMagic
    else if v ≠ 0 then .error .UnsupportedVersion
    else
      let flen := l0 * 256 + l1
      if flen < 10 then .error .InconsistentLength
      else if 10 + rest.length < flen then .error .Truncated
      else
        match parseBody t (rest.take (flen - 10)) with
        | .error e => .error e
        | .ok fr => .ok (fr, flen)
  | _ => .error .Truncated

/-- Well-formed frames: version 0, a known frame type, 32-byte keys, 64-bit
ports and watermark sequence, sizes that fit the 16-bit length fields, and
zero values in every field the frame type does not put on the wire. -/
def wellFormed (f : Frame) : Prop :=
  f.version = 0 ∧ f.ftype ≤ 8 ∧
  f.destinationKey.length = 32 ∧ f.sourceKey.length = 32 ∧
  f.watermarkKey.length = 32 ∧
  (∀ x ∈ f.destination, x < 2 ^ 64) ∧ (∀ x ∈ f.source, x < 2 ^ 64) ∧
  f.watermarkSeq < 2 ^ 64 ∧
  f.payload.length < 65536 ∧
  (encodeCoords f.destination).length < 65536 ∧
  (encodeCoords f.source).length < 65536 ∧
  10 + (marshalBody f).length < 65536 ∧
  (f.ftype = 0 → f.destination = [] ∧ f.source = [] ∧
    f.destinationKey = zeroKey ∧ f.sourceKey = zeroKey ∧
    f.watermarkKey = zeroKey ∧ f.watermarkSeq = 0 ∧ f.payload = []) ∧
  (f.ftype = 1 ∨ f.ftype = 2 ∨ f.ftype = 7 ∨ f.ftype = 8 →
    f.destinationKey = zeroKey ∧ f.sourceKey = zeroKey ∧
    f.watermarkKey = zeroKey ∧ f.watermarkSeq = 0) ∧
  (f.ftype = 3 → f.destination = [] ∧ f.source = [] ∧ f.sourceKey = zeroKey) ∧
  (f.ftype = 4 ∨ f.ftype = 5 ∨ f.ftype = 6 →
    f.destination = [] ∧ f.source = [])

instance instDecidableEqExcept {e a : Type} [DecidableEq e] [DecidableEq a] :
    DecidableEq (Except e a) := fun x y =>
  match x, y with
  | Except.ok u, Except.ok v => decidable_of_iff (u = v) (by simp)
  | Except.error u, Except.error v => decidable_of_iff (u = v) (by simp)
  | Except.ok _, Except.error _ => isFalse (by simp)
  | Except.error _, Except.ok _ => isFalse (by simp)

set_option synthInstance.maxSize 2000 in
set_option maxHeartbeats 1000000 in
instance wellFormedDecidable (f : Frame) : Decidable (wellFormed f) := by
  unfold wellFormed
  infer_instance

/-! ### Round-trip lemmas for the codec -/

theorem take_append_length_eq {α : Type} (l₁ l₂ : List α) (n : Nat)
    (h : l₁.length = n) : (l₁ ++ l₂).take n = l₁ := by
  subst h; exact List.take_left l₁ l₂

theorem drop_append_length_eq {α : Type} (l₁ l₂ : List α) (n : Nat)
    (h : l₁.length = n) : (l₁ ++ l₂).drop n = l₂ := by
  subst h; exact List.drop_left l₁ l₂

theorem parseBody_tree (t : Nat) (ht : t = 1 ∨ t = 2 ∨ t = 7 ∨ t = 8)
    (dst src pl : List Nat)
    (hdst : ∀ x ∈ dst, x < 2 ^ 64) (hsrc : ∀ x ∈ src, x < 2 ^ 64)
    (hpl : pl.length < 65536)
    (hed : (encodeCoords dst).length < 65536)
    (hes : (encodeCoords src).length < 65536) :
    parseBody t (enc16 pl.length ++
        enc16 (encodeCoords dst).length ++ encodeCoords dst ++
        enc16 (encodeCoords src).length ++ encodeCoords src ++ pl)
      = .ok ⟨0, t, dst, src, zeroKey, zeroKey, zeroKey, 0, pl⟩ := by
  have ht0 : ¬ t = 0 := by rcases ht with h | h | h | h <;> omega
  simp only [parseBody, if_neg ht0, if_pos ht]
  simp only [enc16, List.cons_append, List.nil_append, List.append_assoc, parse16]
  rw [dec16_enc16 _ hpl, dec16_enc16 _ hed]
  rw [take_append_length_eq _ _ _ rfl, drop_append_length_eq _ _ _ rfl]
  rw [decodeCoords_encodeCoords dst hdst]
  simp only [parse16]
  rw [dec16_enc16 _ hes]
  rw [take_append_length_eq _ _ _ rfl, drop_append_length_eq _ _ _ rfl]
  rw [decodeCoords_encodeCoords src hsrc]
  simp

theorem drop_64_two_keys {α : Type} (a b rest : List α)
    (ha : a.length = 32) (hb : b.length = 32) :
    (a ++ (b ++ rest)).drop 64 = rest := by
  have h1 : (a ++ (b ++ rest)).drop 64 = ((a ++ (b ++ rest)).drop 32).drop 32 := by
    rw [List.drop_drop]
  rw [h1, drop_append_length_eq _ _ _ ha, drop_append_length_eq _ _ _ hb]

theorem drop_96_three_keys {α : Type} (a b c rest : List α)
    (ha : a.length = 32) (hb : b.length = 32) (hc : c.length = 32) :
    (a ++ (b ++ (c ++ rest))).drop 96 = rest := by
  have h1 : (a ++ (b ++ (c ++ rest))).drop 96
      = ((a ++ (b ++ (c ++ rest))).drop 64).drop 32 := by
    rw [List.drop_drop]
  rw [h1, drop_64_two_keys _ _ _ ha hb, drop_append_length_eq _ _ _ hc]

theorem parseBody_bootstrap (dk wk pl : List Nat) (ws : Nat)
    (hdk : dk.length = 32) (hwk : wk.length = 32) (hws : ws < 2 ^ 64)
    (hpl : pl.length < 65536) :
    parseBody 3 (enc16 pl.length ++ dk ++ wk ++ varu64Encode ws ++ pl)
      = .ok ⟨0, 3, [], [], dk, zeroKey, wk, ws, pl⟩ := by
  simp only [parseBody, if_neg (by norm_num : ¬ (3 : Nat) = 0),
    if_neg (by norm_num : ¬ ((3 : Nat) = 1 ∨ (3 : Nat) = 2 ∨ (3 : Nat) = 7 ∨ (3 : Nat) = 8)),
    if_pos rfl]
  simp only [enc16, List.cons_append, List.nil_append, List.append_assoc, parse16]
  rw [dec16_enc16 _ hpl]
  have hlen64 : ¬ (dk ++ (wk ++ (varu64Encode ws ++ pl))).length < 64 := by
    have := varu64Encode_length_pos ws
    simp [hdk, hwk]
    omega
  rw [if_neg hlen64]
  rw [drop_64_two_keys _ _ _ hdk hwk]
  rw [varu64Decode_encode_append ws hws pl]
  rw [take_append_length_eq _ _ _ hdk, drop_append_length_eq _ _ _ hdk]
  rw [take_append_length_eq _ _ _ hwk]
  simp only [drop_append_length_eq _ _ _ rfl]
  simp

theorem parseBody_snek (t : Nat) (ht : t = 4 ∨ t = 5 ∨ t = 6)
    (dk sk wk pl : List Nat) (ws : Nat)
    (hdk : dk.length = 32) (hsk : sk.length = 32) (hwk : wk.length = 32)
    (hws : ws < 2 ^ 64) (hpl : pl.length < 65536) :
    parseBody t (enc16 pl.length ++ dk ++ sk ++ wk ++ varu64Encode ws ++ pl)
      = .ok ⟨0, t, [], [], dk, sk, wk, ws, pl⟩ := by
  have ht0 : ¬ t = 0 := by rcases ht with h | h | h <;> omega
  have ht1 : ¬ (t = 1 ∨ t = 2 ∨ t = 7 ∨ t = 8) := by rcases ht with h | h | h <;> omega
  have ht3 : ¬ t = 3 := by rcases ht with h | h | h <;> omega
  simp only [parseBody, if_neg ht0, if_neg ht1, if_neg ht3, if_pos ht]
  simp only [enc16, List.cons_append, List.nil_append, List.append_assoc, parse16]
  rw [dec16_enc16 _ hpl]
  have hlen96 : ¬ (dk ++ (sk ++ (wk ++ (varu64Encode ws ++ pl)))).length < 96 := by
    have := varu64Encode_length_pos ws
    simp [hdk, hsk, hwk]
    omega
  rw [if_neg hlen96]
  rw [drop_96_three_keys _ _ _ _ hdk hsk hwk]
  rw [varu64Decode_encode_append ws hws pl]
  rw [take_append_length_eq _ _ _ hdk]
  rw [drop_64_two_keys _ _ _ hdk hsk, take_append_length_eq _ _ _ hwk]
  rw [drop_append_length_eq _ _ _ hdk, take_append_length_eq _ _ _ hsk]
  simp only [drop_append_length_eq _ _ _ rfl]
  simp

theorem unmarshalFrame_header (t : Nat) (body : List Nat)
    (htot : 10 + body.length < 65536) :
    unmarshalFrame (FrameMagicBytes ++ [0, t, 0, 0] ++
        enc16 (10 + body.length) ++ body)
      = match parseBody t body with
        | .error e => .error e
        | .ok fr => .ok (fr, 10 + body.length) := by
  have hflen : (10 + body.length) / 256 % 256 * 256 + (10 + body.length) % 256
      = 10 + body.length := dec16_enc16 _ htot
  show unmarshalFrame ((112 : Nat) :: 105 :: 110 :: 101 :: 0 :: t :: 0 :: 0 ::
      ((10 + body.length) / 256 % 256) :: ((10 + body.length) % 256) :: body) = _
  simp only [unmarshalFrame, hflen]
  rw [if_neg (by simp [FrameMagicBytes]), if_neg (by simp)]
  rw [if_neg (by omega), if_neg (by omega)]
  have htake : body.take (10 + body.length - 10) = body := by
    simp
  rw [htake]

theorem unmarshal_parse_ok (fr : Frame) (hv : fr.version = 0)
    (htot : 10 + (marshalBody fr).length < 65536)
    (hp : parseBody fr.ftype (marshalBody fr) = Except.ok fr) :
    unmarshalFrame (marshalFrame fr) = Except.ok (fr, (marshalFrame fr).length) := by
  rw [marshalFrame_length,
    show marshalFrame fr = FrameMagicBytes ++ [fr.version, fr.ftype, 0, 0] ++
      enc16 (10 + (marshalBody fr).length) ++ marshalBody fr from rfl,
    hv, unmarshalFrame_header fr.ftype (marshalBody fr) htot, hp]

theorem parse_marshalBody_tree (t : Nat) (ht : t = 1 ∨ t = 2 ∨ t = 7 ∨ t = 8)
    (dst src pl : List Nat)
    (hdst : ∀ x ∈ dst, x < 2 ^ 64) (hsrc : ∀ x ∈ src, x < 2 ^ 64)
    (hpl : pl.length < 65536)
    (hed : (encodeCoords dst).length < 65536)
    (hes : (encodeCoords src).length < 65536) :
    parseBody t (marshalBody ⟨0, t, dst, src, zeroKey, zeroKey, zeroKey, 0, pl⟩)
      = Except.ok ⟨0, t, dst, src, zeroKey, zeroKey, zeroKey, 0, pl⟩ := by
  have ht0 : ¬ t = 0 := by rcases ht with h | h | h | h <;> omega
  have hbody : marshalBody ⟨0, t, dst, src, zeroKey, zeroKey, zeroKey, 0, pl⟩
      = enc16 pl.length ++
        enc16 (encodeCoords dst).length ++ encodeCoords dst ++
        enc16 (encodeCoords src).length ++ encodeCoords src ++ pl := by
    dsimp only [marshalBody]
    rw [if_neg ht0, if_pos ht]
  rw [hbody, parseBody_tree t ht dst src pl hdst hsrc hpl hed hes]

theorem parse_marshalBody_bootstrap (dk wk pl : List Nat) (ws : Nat)
    (hdk : dk.length = 32) (hwk : wk.length = 32) (hws : ws < 2 ^ 64)
    (hpl : pl.length < 65536) :
    parseBody 3 (marshalBody ⟨0, 3, [], [], dk, zeroKey, wk, ws, pl⟩)
      = Except.ok ⟨0, 3, [], [], dk, zeroKey, wk, ws, pl⟩ := by
  have hbody : marshalBody ⟨0, 3, [], [], dk, zeroKey, wk, ws, pl⟩
      = enc16 pl.length ++ dk ++ wk ++ varu64Encode ws ++ pl := by
    dsimp only [marshalBody]
    norm_num
  rw [hbody, parseBody_bootstrap dk wk pl ws hdk hwk hws hpl]

theorem parse_marshalBody_snek (t : Nat) (ht : t = 4 ∨ t = 5 ∨ t = 6)
    (dk sk wk pl : List Nat) (ws : Nat)
    (hdk : dk.length = 32) (hsk : sk.length = 32) (hwk : wk.length = 32)
    (hws : ws < 2 ^ 64) (hpl : pl.length < 65536) :
    parseBody t (marshalBody ⟨0, t, [], [], dk, sk, wk, ws, pl⟩)
      = Except.ok ⟨0, t, [], [], dk, sk, wk, ws, pl⟩ := by
  have ht0 : ¬ t = 0 := by rcases ht with h | h | h <;> omega
  have ht1 : ¬ (t = 1 ∨ t = 2 ∨ t = 7 ∨ t = 8) := by rcases ht with h | h | h <;> omega
  have ht3 : ¬ t = 3 := by rcases ht with h | h | h <;> omega
  have hbody : marshalBody ⟨0, t, [], [], dk, sk, wk, ws, pl⟩
      = enc16 pl.length ++ dk ++ sk ++ wk ++ varu64Encode ws ++ pl := by
    dsimp only [marshalBody]
    rw [if_neg ht0, if_neg ht1, if_neg ht3, if_pos ht]
  rw [hbody, parseBody_snek t ht dk sk wk pl ws hdk hsk hwk hws hpl]

/-- C1: for every well-formed frame `F`, unmarshalling the bytes produced
by marshalling `F` succeeds and yields `F` itself (same version, type,
destination and source coordinates, keys, watermark and payload), consuming
exactly the marshalled bytes: `unmarshal` is a left inverse of `marshal` on
well-formed frames. -/
theorem frame_marshal_unmarshal_roundtrip (f : Frame) (h : wellFormed f) :
    unmarshalFrame (marshalFrame f) = Except.ok (f, (marshalFrame f).length) := by
  obtain ⟨ver, t, dst, src, dk, sk, wk, ws, pl⟩ := f
  obtain ⟨hver, ht, hdk, hsk, hwk, hdst, hsrc, hws, hpl, hed, hes, htot, h0,
    htree, h3, hsnek⟩ := h
  dsimp only at hver ht hdk hsk hwk hdst hsrc hws hpl hed hes htot h0 htree h3 hsnek
  subst hver
  interval_cases t
  · obtain ⟨e1, e2, e3, e4, e5, e6, e7⟩ := h0 rfl
    subst e1; subst e2; subst e3; subst e4; subst e5; subst e6; subst e7
    exact unmarshal_parse_ok _ rfl htot (by decide)
  · obtain ⟨e1, e2, e3, e4⟩ := htree (by norm_num)
    subst e1; subst e2; subst e3; subst e4
    exact unmarshal_parse_ok _ rfl htot
      (parse_marshalBody_tree 1 (by norm_num) dst src pl hdst hsrc hpl hed hes)
  · obtain ⟨e1, e2, e3, e4⟩ := htree (by norm_num)
    subst e1; subst e2; subst e3; subst e4
    exact unmarshal_parse_ok _ rfl htot
      (parse_marshalBody_tree 2 (by norm_num) dst src pl hdst hsrc hpl hed hes)
  · obtain ⟨e1, e2, e3⟩ := h3 rfl
    subst e1; subst e2; subst e3
    exact unmarshal_parse_ok _ rfl htot
      (parse_marshalBody_bootstrap dk wk pl ws hdk hwk hws hpl)
  · obtain ⟨e1, e2⟩ := hsnek (by norm_num)
    subst e1; subst e2
    exact unmarshal_parse_ok _ rfl htot
      (parse_marshalBody_snek 4 (by norm_num) dk sk wk pl ws hdk hsk hwk hws hpl)
  · obtain ⟨e1, e2⟩ := hsnek (by norm_num)
    subst e1; subst e2
    exact unmarshal_parse_ok _ rfl htot
      (parse_marshalBody_snek 5 (by norm_num) dk sk wk pl ws hdk hsk hwk hws hpl)
  · obtain ⟨e1, e2⟩ := hsnek (by norm_num)
    subst e1; subst e2
    exact unmarshal_parse_ok _ rfl htot
      (parse_marshalBody_snek 6 (by norm_num) dk sk wk pl ws hdk hsk hwk hws hpl)
  · obtain ⟨e1, e2, e3, e4⟩ := htree (by norm_num)
    subst e1; subst e2; subst e3; subst e4
    exact unmarshal_parse_ok _ rfl htot
      (parse_marshalBody_tree 7 (by norm_num) dst src pl hdst hsrc hpl hed hes)
  · obtain ⟨e1, e2, e3, e4⟩ := htree (by norm_num)
    subst e1; subst e2; subst e3; subst e4
    exact unmarshal_parse_ok _ rfl htot
      (parse_marshalBody_tree 8 (by norm_num) dst src pl hdst hsrc hpl hed hes)

theorem frame_marshal_unmarshal_roundtrip_witness :
    unmarshalFrame (marshalFrame ⟨0, 2, [1, 2], [3], zeroKey, zeroKey, zeroKey, 0, [65, 66]⟩)
      = Except.ok (⟨0, 2, [1, 2], [3], zeroKey, zeroKey, zeroKey, 0, [65, 66]⟩,
          (marshalFrame ⟨0, 2, [1, 2], [3], zeroKey, zeroKey, zeroKey, 0, [65, 66]⟩).length) :=
  frame_marshal_unmarshal_roundtrip
    ⟨0, 2, [1, 2], [3], zeroKey, zeroKey, zeroKey, 0, [65, 66]⟩ (by decide)

/-- C2: for every `n < 2 ^ 63`, varint-decoding the varint-encoding of
`n` returns `n` (consuming exactly the encoded bytes); every varint decode
that succeeds consumes at most 10 bytes; and a decode that sees the
continuation bit on ten consecutive bytes fails with `MalformedVarint`
(`none`). -/
theorem varu64_roundtrip_and_bounded :
    (∀ n : Nat, n < 2 ^ 63 →
      varu64Decode (varu64Encode n) = some (n, (varu64Encode n).length))
    ∧ (∀ (b : List Nat) (v k : Nat), varu64Decode b = some (v, k) → k ≤ 10)
    ∧ (∀ b : List Nat, 10 ≤ b.length → (∀ i, i < 10 → 128 ≤ b.getD i 0) →
        varu64Decode b = none) := by
  refine ⟨?_, ?_, ?_⟩
  · intro n hn
    have h := varu64Decode_encode_append n (lt_trans hn (by norm_num)) []
    simpa using h
  · intro b v k h
    exact varu64DecodeAux_consumed_le 10 0 b v k h
  · intro b hlen hcont
    exact varu64DecodeAux_all_continuation 10 0 b hcont hlen

theorem varu64_roundtrip_and_bounded_witness :
    varu64Decode (varu64Encode 5000) = some (5000, 2)
    ∧ varu64Decode (List.replicate 10 255) = none := by
  constructor
  · have h := varu64_roundtrip_and_bounded.1 5000 (by norm_num)
    rw [h]
    rfl
  · exact varu64_roundtrip_and_bounded.2.2 (List.replicate 10 255)
      (by decide) (by decide)

/-- C5: marshalling the frame `{version 0, type 2 (Tree Routed),
dst coords [1,2,3,4,5000], src coords [4,3,2,1], payload "ABCDEFG"}`
produces exactly the wire bytes
`70 69 6e 65 00 02 00 00 00 21 00 07 00 06 01 02 03 04 a7 08 00 04 04 03
02 01 41 42 43 44 45 46 47`, whose `frame_len` field is `0x0021 = 33`. -/
theorem treeRouted_wire_example :
    marshalFrame ⟨0, 2, [1, 2, 3, 4, 5000], [4, 3, 2, 1],
        zeroKey, zeroKey, zeroKey, 0, [65, 66, 67, 68, 69, 70, 71]⟩
      = [112, 105, 110, 101, 0, 2, 0, 0, 0, 33, 0, 7,
         0, 6, 1, 2, 3, 4, 167, 8, 0, 4, 4, 3, 2, 1,
         65, 66, 67, 68, 69, 70, 71] := by
  decide

/-- C6: for every 32-byte destination key `dk` and watermark key `wk`,
marshalling a Bootstrap frame with watermark sequence 100 and payload
`09 09 09 09 09` produces exactly
`70 69 6e 65 | 00 03 00 00 | 00 52 | 00 05 | dk | wk | 64 | 09 09 09 09 09`:
the `frame_len` field is 82 and `varint(100)` is the single byte `0x64`. -/
theorem bootstrap_wire_example (dk wk : List Nat)
    (hdk : dk.length = 32) (hwk : wk.length = 32) :
    marshalFrame ⟨0, 3, [], [], dk, zeroKey, wk, 100, [9, 9, 9, 9, 9]⟩
      = [112, 105, 110, 101, 0, 3, 0, 0, 0, 82, 0, 5] ++ dk ++ wk ++
        [100, 9, 9, 9, 9, 9] := by
  have hbody : marshalBody ⟨0, 3, [], [], dk, zeroKey, wk, 100, [9, 9, 9, 9, 9]⟩
      = enc16 5 ++ dk ++ wk ++ varu64Encode 100 ++ [9, 9, 9, 9, 9] := by
    dsimp only [marshalBody]
    norm_num
  have hlen : 10 + (marshalBody ⟨0, 3, [], [], dk, zeroKey, wk, 100,
      [9, 9, 9, 9, 9]⟩).length = 82 := by
    rw [hbody]
    simp [enc16, hdk, hwk, show varu64Encode 100 = [100] from rfl]
  show FrameMagicBytes ++ [0, 3, 0, 0] ++
      enc16 (10 + (marshalBody ⟨0, 3, [], [], dk, zeroKey, wk, 100,
        [9, 9, 9, 9, 9]⟩).length) ++
      marshalBody ⟨0, 3, [], [], dk, zeroKey, wk, 100, [9, 9, 9, 9, 9]⟩ = _
  rw [hlen, hbody]
  simp [FrameMagicBytes, enc16, show varu64Encode 100 = [100] from rfl]

theorem bootstrap_wire_example_witness :
    marshalFrame ⟨0, 3, [], [], List.replicate 32 1, zeroKey,
        List.replicate 32 2, 100, [9, 9, 9, 9, 9]⟩
      = [112, 105, 110, 101, 0, 3, 0, 0, 0, 82, 0, 5] ++
        List.replicate 32 1 ++ List.replicate 32 2 ++ [100, 9, 9, 9, 9, 9] :=
  bootstrap_wire_example (List.replicate 32 1) (List.replicate 32 2)
    (by decide) (by decide)

/-! ## The peer reader loop (`Peer.reader` in `router/simulator.go`)

The reader peeks 12 bytes from the connection, checks the magic, computes
from the peeked header how many bytes the whole frame occupies
(`expecting`), reads that many bytes, and unmarshals them.  The numeric
frame-type codes it switches on are declared in code that is not among the
available source files; the spec's frame-type table (§3) fixes
Bootstrap = 3 and SNEK Routed = 4, and the remaining reader-only types
(bootstrap ACK, setup, teardown, SNEK pathfind) are assigned distinct
codes here.  No theorem below depends on the exact values, only on the
tree/greedy types taking the `default` branch of the reader's switch.
-/

/-- Modelled from the spec: frame-type code of a SNEK bootstrap (§3: 3). -/
def TypeVirtualSnakeBootstrap : Nat := 3

/-- Modelled from the spec: frame-type code of a SNEK-routed frame (§3: 4). -/
def TypeVirtualSnake : Nat := 4

/-- Modelled from the spec: reader-only legacy type, code not fixed by the
spec; assigned a distinct unused code. -/
def TypeVirtualSnakePathfind : Nat := 5

/-- Modelled from the spec: reader-only legacy type, code not fixed by the
spec; assigned a distinct unused code. -/
def TypeVirtualSnakeBootstrapACK : Nat := 9

/-- Modelled from the spec: reader-only legacy type, code not fixed by the
spec; assigned a distinct unused code. -/
def TypeVirtualSnakeSetup : Nat := 10

/-- Modelled from the spec: reader-only legacy type, code not fixed by the
spec; assigned a distinct unused code. -/
def TypeVirtualSnakeTeardown : Nat := 11

/-- The `expecting` computation of `Peer.reader`: the total number of bytes
the reader reads for the current frame, computed from the 12 peeked bytes
(`header := peek(12)`, then `header = header[4:]`, so `header[i]` is peeked
byte `4 + i`; two-byte fields are big-endian). -/
def readerExpecting (h : List Nat) : Nat :=
  if h.getD 5 0 = TypeVirtualSnakeBootstrap then
    10 + (h.getD 8 0 * 256 + h.getD 9 0) + (h.getD 6 0 * 256 + h.getD 7 0) + 32
  else if h.getD 5 0 = TypeVirtualSnakeBootstrapACK then
    12 + (h.getD 8 0 * 256 + h.getD 9 0) + (h.getD 10 0 * 256 + h.getD 11 0)
      + (h.getD 6 0 * 256 + h.getD 7 0) + 64
  else if h.getD 5 0 = TypeVirtualSnakeSetup then
    10 + (h.getD 8 0 * 256 + h.getD 9 0) + 64 + (h.getD 6 0 * 256 + h.getD 7 0)
  else if h.getD 5 0 = TypeVirtualSnakeTeardown then
    8 + (h.getD 6 0 * 256 + h.getD 7 0) + 32
  else if h.getD 5 0 = TypeVirtualSnake ∨ h.getD 5 0 = TypeVirtualSnakePathfind then
    8 + (h.getD 6 0 * 256 + h.getD 7 0) + 64
  else
    12 + (h.getD 6 0 * 256 + h.getD 7 0) + (h.getD 8 0 * 256 + h.getD 9 0)
      + (h.getD 10 0 * 256 + h.getD 11 0)

/-- What one iteration of the reader loop does with the incoming stream. -/
inductive ReaderAction where
  | disconnect
  | discardByteAndContinue
  | stopReader
  | deliver (consumed : Nat)
  deriving DecidableEq, Repr

/-- One iteration of `Peer.reader` over the available bytes of the stream:
a failing 12-byte peek (stream exhausted) disconnects the peer; a header
without the magic bytes discards exactly one byte and continues; a stream
that ends before `expecting` bytes disconnects (`io.ReadFull` returns
`ErrUnexpectedEOF`); an unmarshal failure or a non-zero version makes the
reader goroutine return (stop reading) without disconnecting; otherwise the
frame is processed and `expecting` bytes were consumed. -/
def readerStep (s : List Nat) : ReaderAction :=
  if s.length < 12 then ReaderAction.disconnect
  else if s.take 4 ≠ FrameMagicBytes then ReaderAction.discardByteAndContinue
  else if s.length < readerExpecting s then ReaderAction.disconnect
  else
    match unmarshalFrame (s.take (readerExpecting s)) with
    | Except.error _ => ReaderAction.stopReader
    | Except.ok (fr, _) =>
      if fr.version ≠ 0 then ReaderAction.stopReader
      else ReaderAction.deliver (readerExpecting s)

theorem getD_take_eq {α : Type} (l : List α) (n i : Nat) (d : α) (h : i < n) :
    (l.take n).getD i d = l.getD i d := by
  induction l generalizing n i with
  | nil => simp
  | cons x xs ih =>
    cases n with
    | zero => omega
    | succ n =>
      cases i with
      | zero => simp
      | succ i =>
        simp only [List.take_succ_cons, List.getD_cons_succ]
        exact ih n i (by omega)

/-- C3 counterexample: two streams that agree on their first 10 bytes
but make the reader consume different amounts: for tree-routed frames the
payload length sits at peeked bytes 10-11, so 10 peeked bytes do not
determine the frame length. -/
theorem readerExpecting_ten_bytes_insufficient :
    ([112, 105, 110, 101, 0, 2, 0, 0, 0, 0, 0, 0] : List Nat).take 10
      = ([112, 105, 110, 101, 0, 2, 0, 0, 0, 0, 1, 0] : List Nat).take 10
    ∧ readerExpecting [112, 105, 110, 101, 0, 2, 0, 0, 0, 0, 0, 0]
      ≠ readerExpecting [112, 105, 110, 101, 0, 2, 0, 0, 0, 0, 1, 0] := by
  decide

/-- C3 amended: the reader peeks 12 bytes (not 10), and the number of
bytes it consumes for the frame is a function of only those first 12 peeked
bytes. -/
theorem readerExpecting_peek_twelve (s1 s2 : List Nat)
    (h : s1.take 12 = s2.take 12) :
    readerExpecting s1 = readerExpecting s2 := by
  have k : ∀ i, i < 12 → s1.getD i 0 = s2.getD i 0 := by
    intro i hi
    rw [← getD_take_eq s1 12 i 0 hi, h, getD_take_eq s2 12 i 0 hi]
  have k5 := k 5 (by omega)
  have k6 := k 6 (by omega)
  have k7 := k 7 (by omega)
  have k8 := k 8 (by omega)
  have k9 := k 9 (by omega)
  have k10 := k 10 (by omega)
  have k11 := k 11 (by omega)
  simp only [readerExpecting, k5, k6, k7, k8, k9, k10, k11]

theorem readerExpecting_peek_twelve_witness :
    readerExpecting (List.replicate 12 0)
      = readerExpecting (List.replicate 12 0 ++ [7]) :=
  readerExpecting_peek_twelve (List.replicate 12 0)
    (List.replicate 12 0 ++ [7]) (by decide)

/-- C4 counterexample: a peeked header with the magic bytes but
version 1 reaches the unmarshal/version failure path, and the reader then
stops reading (`return`) instead of disconnecting the peer — refuting the
claim that every parse error other than `BadMagic` disconnects the peer. -/
theorem readerStep_unsupported_version_no_disconnect :
    readerStep [112, 105, 110, 101, 1, 2, 0, 0, 0, 0, 0, 0]
        = ReaderAction.stopReader
    ∧ ReaderAction.stopReader ≠ ReaderAction.disconnect := by
  decide

/-- C4 amended: on a failing 12-byte peek (stream exhausted) the peer
is disconnected; on a header without the magic bytes the reader discards
exactly one byte of the stream and continues; when the stream ends before
the expected frame length the peer is disconnected; and on an unmarshal
failure (including an unsupported version) the frame is discarded and the
reader stops reading without disconnecting the peer. -/
theorem readerStep_error_handling :
    (∀ s : List Nat, s.length < 12 → readerStep s = ReaderAction.disconnect)
    ∧ (∀ s : List Nat, 12 ≤ s.length → s.take 4 ≠ FrameMagicBytes →
        readerStep s = ReaderAction.discardByteAndContinue)
    ∧ (∀ s : List Nat, 12 ≤ s.length → s.take 4 = FrameMagicBytes →
        s.length < readerExpecting s → readerStep s = ReaderAction.disconnect)
    ∧ (∀ (s : List Nat) (e : FrameError), 12 ≤ s.length →
        s.take 4 = FrameMagicBytes → readerExpecting s ≤ s.length →
        unmarshalFrame (s.take (readerExpecting s)) = Except.error e →
        readerStep s = ReaderAction.stopReader) := by
  refine ⟨?_, ?_, ?_, ?_⟩
  · intro s h
    simp [readerStep, h]
  · intro s h hm
    rw [readerStep, if_neg (by omega), if_pos hm]
  · intro s h hm hlt
    rw [readerStep, if_neg (by omega), if_neg (by simp [hm]), if_pos hlt]
  · intro s e h hm hle hunm
    rw [readerStep, if_neg (by omega), if_neg (by simp [hm]),
      if_neg (by omega), hunm]

theorem readerStep_error_handling_witness :
    readerStep (List.replicate 12 9) = ReaderAction.discardByteAndContinue
    ∧ readerStep [112, 105, 110, 101, 3, 2, 0, 0, 0, 0, 0, 0]
        = ReaderAction.stopReader :=
  ⟨readerStep_error_handling.2.1 (List.replicate 12 9) (by decide) (by decide),
   readerStep_error_handling.2.2.2 [112, 105, 110, 101, 3, 2, 0, 0, 0, 0, 0, 0]
     FrameError.UnsupportedVersion (by decide) (by decide) (by decide) (by decide)⟩

/-! ## Peer lifecycle state (`Peer` in `router/simulator.go`)

Wall-clock time is a `Nat` parameter `now`; `time.Since x` is `now - x`.
The router's current root public key, which `SeenCommonRootRecently`
obtains from `p.r.RootPublicKey()`, is likewise passed as a parameter.
-/

/-- One entry of the ancestor-signature chain of a tree announcement
(`types.SignatureWithHop`): the port of the hop, the signing public key
and the signature bytes (the signature itself is uninterpreted here). -/
structure SignatureWithHop where
  port : Nat
  publicKey : List Nat
  signature : List Nat
  deriving DecidableEq, Repr

/-- A tree announcement (`types.SwitchAnnouncement`): root key, root
sequence and the ancestor-signature chain. -/
structure SwitchAnnouncement where
  rootPublicKey : List Nat
  sequence : Nat
  signatures : List SignatureWithHop
  deriving DecidableEq, Repr

/-- Embedding of `rootAnnouncementWithTime`: a switch announcement plus the local time
at which it was received. -/
structure RootAnnouncementWithTime where
  announcement : SwitchAnnouncement
  receivedAt : Nat
  deriving DecidableEq, Repr

/-- The five per-peer statistics counters of `peerStatistics`. -/
structure PeerStatistics where
  txProtoSuccessful : Nat
  txProtoDropped : Nat
  txTrafficSuccessful : Nat
  txTrafficDropped : Nat
  rxDroppedNoDestination : Nat
  deriving DecidableEq, Repr

/-- The `Peer` fields the claims are about: port, the `started` and `alive`
atomics, the peer's public key, the most recent announcement slot, the
coordinates derived from it (`nil`-able, hence `Option`), and the
statistics counters. -/
structure PeerState where
  port : Nat
  started : Bool
  alive : Bool
  public : List Nat
  announcement : Option RootAnnouncementWithTime
  coords : Option (List Nat)
  statistics : PeerStatistics
  deriving DecidableEq, Repr

/-- Modelled from the spec: the `announcementTimeout` constant is declared
in router code not among the available source files; the spec gives its
default of 45 seconds.  Time is counted in seconds here. -/
def announcementTimeout : Nat := 45

/-- Embedding of `Peer.lastAnnouncement`: `nil` when the peer is not started, or when
the stored announcement is at least `announcementTimeout` old; otherwise
the stored announcement slot. -/
def lastAnnouncement (p : PeerState) (now : Nat) :
    Option RootAnnouncementWithTime :=
  if p.started = false then none
  else
    match p.announcement with
    | none => none
    | some a =>
      if announcementTimeout ≤ now - a.receivedAt then none else some a

/-- Embedding of `Peer.SeenRecently`: true exactly when `lastAnnouncement` is non-nil. -/
def seenRecently (p : PeerState) (now : Nat) : Bool :=
  (lastAnnouncement p now).isSome

/-- Embedding of `Peer.SeenCommonRootRecently`: false when the peer is not alive or has
no (fresh) announcement; otherwise compares the announcement's root key
with the router's current root key. -/
def seenCommonRootRecently (p : PeerState) (now : Nat)
    (routerRootKey : List Nat) : Bool :=
  if p.alive = false then false
  else
    match lastAnnouncement p now with
    | none => false
    | some last => last.announcement.rootPublicKey == routerRootKey

/-- Modelled from the spec: `types.SwitchAnnouncement.PeerCoords` is not
among the available source files.  Per §3, signatures form a path from the
root to the announcer, no key may appear twice (loop detection), and the
announcer's coordinates are the sequence of ports in the signatures; the
computation fails when the chain is empty, does not end at the peer's key,
or repeats a key. -/
def peerCoords (a : SwitchAnnouncement) (pk : List Nat) : Option (List Nat) :=
  if a.signatures = [] then none
  else if a.signatures.getLast?.map SignatureWithHop.publicKey ≠ some pk then none
  else if ¬ (a.signatures.map SignatureWithHop.publicKey).Nodup then none
  else some (a.signatures.map SignatureWithHop.port)

/-- Embedding of `Peer.updateAnnouncement`: on a `PeerCoords` failure return an error
(`true`) with `alive` cleared and the announcement and coordinates wiped;
on success store the announcement with the receipt time and the computed
coordinates, set `alive`, and return no error (`false`). -/
def updateAnnouncement (p : PeerState) (a : SwitchAnnouncement) (now : Nat) :
    PeerState × Bool :=
  match peerCoords a p.public with
  | none =>
    ({ p with alive := false, announcement := none, coords := none }, true)
  | some c =>
    ({ p with
        alive := true
        announcement := some ⟨a, now⟩
        coords := some c }, false)

/-- Embedding of `peerStatistics.reset`: zero all five counters. -/
def peerStatisticsReset (_ : PeerStatistics) : PeerStatistics :=
  ⟨0, 0, 0, 0, 0⟩

/-- Embedding of `Peer.stop`: fails (`none`) when the peer is already stopped; otherwise
clears `started` and `alive` (the cancellation and connection close are
I/O effects outside this model).  It does not touch the statistics. -/
def stopPeer (p : PeerState) : Option PeerState :=
  if p.started = false then none
  else some { p with started := false, alive := false }

/-! ### C7: `SeenRecently` -/

/-- A started=false peer holding a fresh announcement, for the C7
counterexample. -/
def peerStoppedFresh : PeerState :=
  ⟨1, false, true, zeroKey, some ⟨⟨zeroKey, 1, []⟩, 0⟩, none, ⟨0, 0, 0, 0, 0⟩⟩

/-- C7 counterexample: at time 10 this peer's stored announcement is
10 seconds old — strictly less than `announcementTimeout` — yet
`SeenRecently` returns false, because the peer is not started.  The claimed
equivalence with `now - received_at < announcementTimeout` alone is
therefore false. -/
theorem seenRecently_claim_counterexample :
    peerStoppedFresh.announcement.map
        (fun a => decide (10 - a.receivedAt < announcementTimeout)) = some true
    ∧ seenRecently peerStoppedFresh 10 = false := by
  decide

/-- C7 amended: SeenRecently returns true iff the peer is started
and holds a stored announcement received strictly less than
`announcementTimeout` (45 seconds) ago. -/
theorem seenRecently_iff (p : PeerState) (now : Nat) :
    seenRecently p now = true ↔
      p.started = true ∧ ∃ a, p.announcement = some a ∧
        now - a.receivedAt < announcementTimeout := by
  unfold seenRecently lastAnnouncement
  cases hst : p.started with
  | false => simp
  | true =>
    cases ha : p.announcement with
    | none => simp
    | some a =>
      by_cases ht : announcementTimeout ≤ now - a.receivedAt
      · simp only [Bool.true_eq_false, if_neg, if_pos ht]
        simp [ht]
      · simp only [Bool.true_eq_false, if_neg, if_neg ht]
        simp
        omega

/-! ### C10: `SeenCommonRootRecently` -/

/-- C10: SeenCommonRootRecently returns true iff the peer's `alive`
flag is set, the peer is started and holds an announcement younger than
`announcementTimeout`, and that announcement's root public key equals the
router's current root public key. -/
theorem seenCommonRootRecently_iff (p : PeerState) (now : Nat)
    (rpk : List Nat) :
    seenCommonRootRecently p now rpk = true ↔
      p.alive = true ∧ p.started = true ∧ ∃ a, p.announcement = some a ∧
        now - a.receivedAt < announcementTimeout ∧
        a.announcement.rootPublicKey = rpk := by
  unfold seenCommonRootRecently lastAnnouncement
  cases hal : p.alive with
  | false => simp
  | true =>
    cases hst : p.started with
    | false => simp
    | true =>
      cases ha : p.announcement with
      | none => simp
      | some a =>
        by_cases ht : announcementTimeout ≤ now - a.receivedAt
        · simp [ht]
        · simp [ht]
          omega

/-! ### C9: `updateAnnouncement` -/

/-- C9: if computing the peer's coordinates from an incoming switch
announcement fails, `updateAnnouncement` reports an error and leaves the
peer with `alive = false`, no stored announcement, and no coordinates; if
it succeeds, it reports no error, sets `alive = true`, and stores the
announcement together with the receipt time and the computed coordinates. -/
theorem updateAnnouncement_spec (p : PeerState) (a : SwitchAnnouncement)
    (now : Nat) :
    (peerCoords a p.public = none →
      updateAnnouncement p a now
        = ({ p with alive := false, announcement := none, coords := none },
            true))
    ∧ (∀ c, peerCoords a p.public = some c →
      updateAnnouncement p a now
        = ({ p with
              alive := true
              announcement := some ⟨a, now⟩
              coords := some c }, false)) := by
  constructor
  · intro h
    simp [updateAnnouncement, h]
  · intro c h
    simp [updateAnnouncement, h]

/-- A freshly connected peer with public key `7 × 32`, for the C9 witness. -/
def examplePeer : PeerState :=
  ⟨2, true, false, List.replicate 32 7, none, none, ⟨0, 0, 0, 0, 0⟩⟩

/-- An announcement with an empty signature chain: `PeerCoords` fails. -/
def annNoSignatures : SwitchAnnouncement := ⟨zeroKey, 1, []⟩

/-- An announcement whose chain ends at `examplePeer`'s key via port 4:
`PeerCoords` yields `[4]`. -/
def annToExamplePeer : SwitchAnnouncement :=
  ⟨zeroKey, 1, [⟨4, List.replicate 32 7, List.replicate 64 0⟩]⟩

theorem updateAnnouncement_spec_witness :
    updateAnnouncement examplePeer annNoSignatures 5
      = ({ examplePeer with
            alive := false
            announcement := none
            coords := none }, true)
    ∧ updateAnnouncement examplePeer annToExamplePeer 5
      = ({ examplePeer with
            alive := true
            announcement := some ⟨annToExamplePeer, 5⟩
            coords := some [4] }, false) :=
  ⟨(updateAnnouncement_spec examplePeer annNoSignatures 5).1 (by decide),
   (updateAnnouncement_spec examplePeer annToExamplePeer 5).2 [4] (by decide)⟩

/-! ### C8: `Peer.stop` and the statistics counters -/

/-- A started peer with non-zero statistics, for the C8 counterexample. -/
def busyPeer : PeerState :=
  ⟨3, true, true, zeroKey, none, none, ⟨1, 2, 3, 4, 5⟩⟩

/-- C8 counterexample: stopping a peer whose counters are
`⟨1,2,3,4,5⟩` succeeds and leaves the counters at `⟨1,2,3,4,5⟩`, not zero —
`stop` never invokes `peerStatistics.reset`. -/
theorem stopPeer_does_not_reset_statistics :
    (stopPeer busyPeer).map PeerState.statistics
        = some ⟨1, 2, 3, 4, 5⟩
    ∧ (⟨1, 2, 3, 4, 5⟩ : PeerStatistics) ≠ ⟨0, 0, 0, 0, 0⟩ := by
  decide

/-- C8 amended: stopping a peer leaves all of its statistics counters
unchanged; the `peerStatistics.reset` method — which `stop` does not
invoke — sets all five counters to zero when called. -/
theorem stopPeer_preserves_statistics :
    (∀ p q : PeerState, stopPeer p = some q → q.statistics = p.statistics)
    ∧ ∀ s : PeerStatistics, peerStatisticsReset s = ⟨0, 0, 0, 0, 0⟩ := by
  constructor
  · intro p q h
    unfold stopPeer at h
    by_cases hs : p.started = false
    · rw [if_pos hs] at h
      exact absurd h (by simp)
    · rw [if_neg hs] at h
      have hq := Option.some.inj h
      rw [← hq]
  · intro s
    rfl

theorem stopPeer_preserves_statistics_witness :
    ({ busyPeer with started := false, alive := false } : PeerState).statistics
      = busyPeer.statistics :=
  stopPeer_preserves_statistics.1 busyPeer
    { busyPeer with started := false, alive := false } (by decide)

end Pinecone
